import Mathlib

/-!
Verification of the liberte repository's specification claims against a
shallow embedding of the relevant Rust source files.

Conventions used throughout:
  * bytes are `Nat` values (the source works with `u8`; no arithmetic
    overflow is involved in any embedded function, so no masking is needed);
  * byte strings (`Vec<u8>`, `[u8; 32]`) are `List Nat`;
  * timestamps (`DateTime<Utc>`, `Instant`) are points on an abstract
    integer or rational timeline passed explicitly (`now`);
  * external cryptographic primitives (XChaCha20-Poly1305, Ed25519,
    bincode serialization) are parameters of the embedded functions,
    since their implementations live in third-party crates; hash-map /
    hash-set state is embedded as association lists with the usual
    insert-replaces semantics.
-/

namespace Liberte

/-- A `u8` value. -/
abbrev Byte := Nat

-- ---------------------------------------------------------------------------
-- Association-list embedding of std HashMap (insert replaces, lookup first)
-- ---------------------------------------------------------------------------

/-- `HashMap::get`: first binding of `key`, if any. -/
def alGet {α β : Type} [DecidableEq α] : List (α × β) → α → Option β
  | [], _ => none
  | (k, v) :: rest, key => if k = key then some v else alGet rest key

/-- `HashMap::insert`: replace the binding of `key`, or append a new one. -/
def alInsert {α β : Type} [DecidableEq α] : List (α × β) → α → β → List (α × β)
  | [], key, val => [(key, val)]
  | (k, v) :: rest, key, val =>
      if k = key then (key, val) :: rest else (k, v) :: alInsert rest key val

/-- `HashMap::remove`: drop every binding of `key`. -/
def alRemove {α β : Type} [DecidableEq α] (l : List (α × β)) (key : α) : List (α × β) :=
  l.filter (fun kv => kv.1 ≠ key)

theorem alGet_alInsert_self {α β : Type} [DecidableEq α]
    (l : List (α × β)) (k : α) (v : β) : alGet (alInsert l k v) k = some v := by
  induction l with
  | nil => simp [alInsert, alGet]
  | cons hd tl ih =>
      by_cases h : hd.1 = k
      · simp [alInsert, h, alGet]
      · simp [alInsert, h, alGet, ih]

theorem alGet_alInsert_ne {α β : Type} [DecidableEq α]
    (l : List (α × β)) (k k' : α) (v : β) (h : k' ≠ k) :
    alGet (alInsert l k v) k' = alGet l k' := by
  have h' : ¬k = k' := fun hk => h hk.symm
  induction l with
  | nil => simp [alInsert, alGet, h']
  | cons hd tl ih =>
      obtain ⟨a, b⟩ := hd
      by_cases hk : a = k
      · subst hk
        simp [alInsert, alGet, h']
      · simp [alInsert, hk, alGet, ih]

-- ---------------------------------------------------------------------------
-- liberte-shared/src/crypto.rs
-- ---------------------------------------------------------------------------

/-- `constants.rs`: XChaCha20-Poly1305 nonce size in bytes. -/
def NONCE_SIZE : Nat := 24

/--
`crypto.rs::encrypt`: authenticated encryption returning
`nonce || ciphertext`.  The XChaCha20-Poly1305 primitive itself lives in
the `chacha20poly1305` crate and is passed in as `aeadEnc`
(key → nonce → plaintext → ciphertext-with-tag); `nonceBytes` stands for
the 24 bytes drawn from the OS CSPRNG by `generate_nonce`.
-/
def encrypt (aeadEnc : List Byte → List Byte → List Byte → List Byte)
    (key nonceBytes plaintext : List Byte) : List Byte :=
  nonceBytes ++ aeadEnc key nonceBytes plaintext

/--
`crypto.rs::decrypt`: rejects inputs shorter than the nonce, splits off
the 24-byte nonce, and hands the remainder to the AEAD primitive
(`aeadDec`, returning `none` on authentication failure, which the source
maps to `CryptoError::DecryptionFailed`).
-/
def decrypt (aeadDec : List Byte → List Byte → List Byte → Option (List Byte))
    (key data : List Byte) : Option (List Byte) :=
  if data.length < NONCE_SIZE then none
  else aeadDec key (data.take NONCE_SIZE) (data.drop NONCE_SIZE)

/--
Claim C2: for every 32-byte symmetric key, every plaintext, and every
24-byte nonce drawn by `encrypt`, `decrypt (key, encrypt (key, m)) = some m`,
provided the underlying XChaCha20-Poly1305 primitive satisfies the AEAD
round-trip property (its correctness is a fact about the external
`chacha20poly1305` crate, taken as a hypothesis).  The `encrypt` output
is by construction the nonce followed by the ciphertext-with-tag.
-/
theorem encrypt_decrypt_roundtrip
    (aeadEnc : List Byte → List Byte → List Byte → List Byte)
    (aeadDec : List Byte → List Byte → List Byte → Option (List Byte))
    (haead : ∀ k n m, aeadDec k n (aeadEnc k n m) = some m)
    (key nonce m : List Byte) (hn : nonce.length = NONCE_SIZE) :
    decrypt aeadDec key (encrypt aeadEnc key nonce m) = some m := by
  unfold decrypt encrypt
  rw [if_neg]
  · rw [List.take_left' hn, List.drop_left' hn, haead]
  · rw [List.length_append, hn]
    omega

/-- Concrete instantiation of `encrypt_decrypt_roundtrip` (toy AEAD that
appends a one-byte tag). -/
theorem encrypt_decrypt_roundtrip_witness :
    decrypt (fun _ _ c => some c.dropLast) (List.replicate 32 7)
      (encrypt (fun _ _ m => m ++ [0]) (List.replicate 32 7)
        (List.replicate 24 1) [5, 6]) = some [5, 6] :=
  encrypt_decrypt_roundtrip (fun _ _ m => m ++ [0]) (fun _ _ c => some c.dropLast)
    (fun k n m => by simp) (List.replicate 32 7) (List.replicate 24 1) [5, 6] (by rfl)

-- ---------------------------------------------------------------------------
-- liberte-shared/src/premium.rs and liberte-server/src/premium.rs
-- ---------------------------------------------------------------------------

/-- A user's Ed25519 verifying key (`[u8; 32]`). -/
abbrev UserPubkey := List Byte

/-- `premium.rs::PremiumToken`: a token signed by the payment server. -/
structure PremiumToken where
  user_pubkey : UserPubkey
  valid_until : Int
  signature : List Byte
deriving DecidableEq

/-- `premium.rs::CachedStatus`: a cached premium verification result. -/
structure CachedStatus where
  valid : Bool
  valid_until : Int
  verified_at : Int
deriving DecidableEq

/-- `CachedStatus::is_fresh`: the entry is usable while the subscription
has not expired (`self.valid && Utc::now() < self.valid_until`), with
`Utc::now()` passed explicitly. -/
def CachedStatus.is_fresh (e : CachedStatus) (now : Int) : Bool :=
  e.valid && decide (now < e.valid_until)

/-- The verifier's cache: `user_pubkey -> CachedStatus`. -/
abbrev PremiumCache := List (UserPubkey × CachedStatus)

/--
`liberte-shared premium.rs::check_premium_status_with_key`: rejects when
`Utc::now() > token.valid_until`, then performs the Ed25519 check of
`user_pubkey || rfc3339(valid_until)` against the payment-server key.
The whole cryptographic part (key parsing, payload reconstruction,
signature parsing and verification — each failure returning `false`) is
the external-crate oracle `sigOk`.
-/
def check_premium_status_with_key (sigOk : PremiumToken → Bool)
    (now : Int) (t : PremiumToken) : Bool :=
  if now > t.valid_until then false
  else sigOk t

/--
`PremiumVerifier::verify`: serve `true` from the cache when a fresh entry
exists for `token.user_pubkey`; otherwise run the full check and cache
the outcome (with the token's `valid_until` and `verified_at = now`).
Returns the boolean outcome together with the updated cache.
-/
def PremiumVerifier.verify (sigOk : PremiumToken → Bool) (now : Int)
    (cache : PremiumCache) (t : PremiumToken) : Bool × PremiumCache :=
  match alGet cache t.user_pubkey with
  | some entry =>
      if entry.is_fresh now then (true, cache)
      else
        let valid := check_premium_status_with_key sigOk now t
        (valid, alInsert cache t.user_pubkey ⟨valid, t.valid_until, now⟩)
  | none =>
      let valid := check_premium_status_with_key sigOk now t
      (valid, alInsert cache t.user_pubkey ⟨valid, t.valid_until, now⟩)

/-- Seconds in a day, used to embed `chrono::Duration::days`. -/
def SECS_PER_DAY : Int := 86400

/-- `PremiumVerifier::admin_grant`: insert a cache entry valid for
100 years (`Utc::now() + Duration::days(36500)`). -/
def PremiumVerifier.admin_grant (cache : PremiumCache) (user : UserPubkey)
    (now : Int) : PremiumCache :=
  alInsert cache user ⟨true, now + 36500 * SECS_PER_DAY, now⟩

/-- `PremiumVerifier::admin_revoke`: drop the user's cache entry. -/
def PremiumVerifier.admin_revoke (cache : PremiumCache) (user : UserPubkey) :
    PremiumCache :=
  alRemove cache user

/-- `PremiumVerifier::purge_expired`: retain only fresh entries. -/
def PremiumVerifier.purge_expired (cache : PremiumCache) (now : Int) :
    PremiumCache :=
  cache.filter (fun kv => kv.2.is_fresh now)

/--
Claim C1 as stated is false on the code: `verify`'s cache short-circuit
is keyed by the user's verifying key alone and compares `now` against the
*cached* `valid_until`, never against the presented token's.  Concretely:
after `admin_grant` for user `u` at time 5, `verify` of a token for `u`
with `valid_until = 3 < 5` (expired, and with a signature oracle that
rejects everything) still returns `true`.
-/
theorem premium_expired_cache_counterexample :
    ((3 : Int) < 5) ∧
    (PremiumVerifier.verify (fun _ => false) 5
        (PremiumVerifier.admin_grant [] (List.replicate 32 42) 5)
        ⟨List.replicate 32 42, 3, []⟩).1 = true := by
  constructor
  · decide
  · rfl

/--
Claim C1, amended: after any sequence of operations — i.e. from any cache
state — `verify` of a token whose `valid_until` is earlier than `now`
returns `false` *unless* the cache holds a fresh entry for the token's
user key (such an entry arises only from `admin_grant` or from an earlier
successful verification for the same user, and then the cache
short-circuit returns `true` without examining the presented token).
With no fresh cache entry for the token's user, an expired token never
grants access, whatever the signature oracle says.
-/
theorem premium_expired_rejected_without_fresh_cache
    (sigOk : PremiumToken → Bool) (now : Int) (cache : PremiumCache)
    (t : PremiumToken) (hexp : t.valid_until < now)
    (hcache : ∀ e, alGet cache t.user_pubkey = some e → e.is_fresh now = false) :
    (PremiumVerifier.verify sigOk now cache t).1 = false := by
  unfold PremiumVerifier.verify
  cases hget : alGet cache t.user_pubkey with
  | none =>
      simp [check_premium_status_with_key, hexp]
  | some entry =>
      simp [hcache entry hget, check_premium_status_with_key, hexp]

/-- Concrete instantiation of `premium_expired_rejected_without_fresh_cache`:
from the empty cache, an expired token (even with an accepting signature
oracle) is rejected. -/
theorem premium_expired_rejected_witness :
    (PremiumVerifier.verify (fun _ => true) 5 [] ⟨List.replicate 32 1, 3, []⟩).1 = false :=
  premium_expired_rejected_without_fresh_cache (fun _ => true) 5 []
    ⟨List.replicate 32 1, 3, []⟩ (by decide)
    (fun e he => by simp [alGet] at he)

-- ---------------------------------------------------------------------------
-- liberte-shared/src/invite.rs
-- ---------------------------------------------------------------------------

/-- `invite.rs::InviteError`. -/
inductive InviteError
  | invalidFormat
  | expired
  | invalidSignature
  | base64Decode
deriving DecidableEq

/-- `invite.rs::InvitePayload` (a `Uuid` is embedded as a `Nat`). -/
structure InvitePayload where
  channel_id : Nat
  channel_name : String
  inviter_pubkey : UserPubkey
  channel_key : List Byte
  created_at : Int
  expires_at : Int
deriving DecidableEq

/-- `invite.rs::InviteToken`: payload plus detached Ed25519 signature. -/
structure InviteToken where
  payload : InvitePayload
  signature : List Byte
deriving DecidableEq

/--
`InviteToken::verify`: expiry first (`Utc::now() > expires_at` →
`Expired`), then bincode-serialize the payload (failure →
`InvalidFormat`), then the Ed25519 step — parsing the signature bytes,
parsing the inviter's verifying key and verifying, each failure mapped to
`InvalidSignature`.  `ser` is the external bincode serializer and
`edVerify pk msg sig` folds the three-stage Ed25519 check of the external
`ed25519-dalek` crate.
-/
def InviteToken.verify (ser : InvitePayload → Option (List Byte))
    (edVerify : UserPubkey → List Byte → List Byte → Bool)
    (now : Int) (t : InviteToken) : Except InviteError Unit :=
  if now > t.payload.expires_at then .error .expired
  else
    match ser t.payload with
    | none => .error .invalidFormat
    | some payload_bytes =>
        if edVerify t.payload.inviter_pubkey payload_bytes t.signature then .ok ()
        else .error .invalidSignature

/--
Claim C3: (1) `verify` fails with `Expired` exactly when
`now > expires_at` — the expiry check runs first, so this holds whatever
the signature; (2) on an unexpired, serializable token, `verify` fails
with `InvalidSignature` exactly when the Ed25519 verification of the
payload bytes against the inviter's key fails; (3) the two errors are
distinct values; (4) a token whose payload was mutated after signing
(same signature, different payload) fails with `InvalidSignature`
whenever it is not expired, given that the signature binds its message
(it verifies only for the originally signed bytes) and that bincode
serialization is injective on payloads.
-/
theorem inviteToken_verify_spec
    (ser : InvitePayload → Option (List Byte))
    (edVerify : UserPubkey → List Byte → List Byte → Bool)
    (now : Int) (t : InviteToken) :
    (InviteToken.verify ser edVerify now t = .error .expired
        ↔ now > t.payload.expires_at)
    ∧ (∀ pb, ¬ now > t.payload.expires_at → ser t.payload = some pb →
        (InviteToken.verify ser edVerify now t = .error .invalidSignature
          ↔ edVerify t.payload.inviter_pubkey pb t.signature = false))
    ∧ InviteError.expired ≠ InviteError.invalidSignature
    ∧ (∀ (orig : InviteToken) (origBytes mutBytes : List Byte),
        ser orig.payload = some origBytes →
        (∀ m, edVerify orig.payload.inviter_pubkey m orig.signature = true →
          m = origBytes) →
        (∀ p p' b, ser p = some b → ser p' = some b → p = p') →
        ∀ (t' : InviteToken), t'.signature = orig.signature →
          t'.payload.inviter_pubkey = orig.payload.inviter_pubkey →
          t'.payload ≠ orig.payload →
          ¬ now > t'.payload.expires_at →
          ser t'.payload = some mutBytes →
          InviteToken.verify ser edVerify now t' = .error .invalidSignature) := by
  refine ⟨?_, ?_, ?_, ?_⟩
  · unfold InviteToken.verify
    by_cases hexp : now > t.payload.expires_at
    · simp [hexp]
    · cases hser : ser t.payload with
      | none => simp [hexp, hser]
      | some pb =>
          by_cases hv : edVerify t.payload.inviter_pubkey pb t.signature
          · simp [hexp, hser, hv]
          · simp [hexp, hser, hv]
  · intro pb hexp hser
    unfold InviteToken.verify
    by_cases hv : edVerify t.payload.inviter_pubkey pb t.signature
    · simp [hexp, hser, hv]
    · simp [hexp, hser, hv, Bool.eq_false_iff]
  · decide
  · intro orig origBytes mutBytes hserOrig hbind hinj t' hsig hpk hne hexp hserMut
    have hvfalse : edVerify t'.payload.inviter_pubkey mutBytes t'.signature = false := by
      rw [hsig, hpk]
      by_contra hcon
      have htrue : edVerify orig.payload.inviter_pubkey mutBytes orig.signature = true := by
        revert hcon
        cases edVerify orig.payload.inviter_pubkey mutBytes orig.signature <;> simp
      have hmb : mutBytes = origBytes := hbind mutBytes htrue
      exact hne (hinj t'.payload orig.payload origBytes (hmb ▸ hserMut) hserOrig)
    unfold InviteToken.verify
    simp [hexp, hserMut, hvfalse]

/-- Concrete instantiation of `inviteToken_verify_spec`: with a rejecting
verification oracle and an unexpired token, `verify` reports
`InvalidSignature`. -/
theorem inviteToken_verify_witness :
    InviteToken.verify (fun _ => some [1]) (fun _ _ _ => false) 5
      ⟨⟨0, "c", List.replicate 32 2, List.replicate 32 3, 0, 10⟩, List.replicate 64 4⟩
      = .error .invalidSignature :=
  ((inviteToken_verify_spec (fun _ => some [1]) (fun _ _ _ => false) 5
      ⟨⟨0, "c", List.replicate 32 2, List.replicate 32 3, 0, 10⟩,
        List.replicate 64 4⟩).2.1 [1] (by decide) rfl).mpr rfl

-- ---------------------------------------------------------------------------
-- liberte-server/src/error.rs and liberte-server/src/blob_store.rs
-- ---------------------------------------------------------------------------

/-- `error.rs::ServerError` (string payloads kept, `Uuid` as `Nat`). -/
inductive ServerError
  | blobNotFound (id : Nat)
  | blobTooLarge (size max : Nat)
  | blobStorage (msg : String)
  | premiumVerificationFailed
  | badRequest (msg : String)
  | forbidden (msg : String)
  | notFound (msg : String)
  | internal (msg : String)
deriving DecidableEq

/-- The `BadRequest` message used by the traversal guards. -/
def traversalMsg : String := "Path traversal detected"

/-- A `std::path::Component`: `Normal`, `ParentDir`, `CurDir`, `RootDir`
(the Windows-only `Prefix` component plays no role on the paths the blob
store builds and is omitted). -/
inductive PathComp
  | normal (s : List Char)
  | parentDir
  | curDir
  | rootDir
deriving DecidableEq

/-- A filesystem path as its component list. -/
abbrev FsPath := List PathComp

/-- A single `..`-substring scan (`str::contains("..")`). -/
def hasDotDot : List Char → Bool
  | [] => false
  | [_] => false
  | a :: b :: rest => (a == '.' && b == '.') || hasDotDot (b :: rest)

/-- `Path::join` with one separator-free segment: the empty string adds
no component, `"."` is `CurDir`, `".."` is `ParentDir`, anything else a
single `Normal` component. -/
def strToComps (s : List Char) : FsPath :=
  if s = [] then []
  else if s = ['.'] then [.curDir]
  else if s = ['.', '.'] then [.parentDir]
  else [.normal s]

/-- The component loop of `blob_store.rs::ensure_within`: push `Normal`
components onto `resolved`, error out on `ParentDir`, skip the rest. -/
def pushNormals (acc : FsPath) : FsPath → Except ServerError FsPath
  | [] => .ok acc
  | .normal c :: rest => pushNormals (acc ++ [.normal c]) rest
  | .parentDir :: _ => .error (.badRequest traversalMsg)
  | .curDir :: rest => pushNormals acc rest
  | .rootDir :: rest => pushNormals acc rest

/--
`blob_store.rs::ensure_within`: canonicalize the base (`canonicalize` is
the filesystem's canonicalization, a parameter since it is I/O; the
source falls back to `base` itself on error, so the parameter is total),
strip the canonical base off the target when it is a prefix
(`strip_prefix(..).unwrap_or(target)`), walk the remaining components,
and finally re-check that the resolution stays under the canonical base.
-/
def ensure_within (canonicalize : FsPath → FsPath) (base target : FsPath) :
    Except ServerError FsPath :=
  match pushNormals (canonicalize base)
      (if (canonicalize base).isPrefixOf target then
        target.drop (canonicalize base).length
      else target) with
  | .error e => .error e
  | .ok resolved =>
      if (canonicalize base).isPrefixOf resolved then .ok resolved
      else .error (.badRequest traversalMsg)

/-- `blob_store.rs::BlobStore` (the fields kept by the source). -/
structure BlobStore where
  base_path : FsPath
  max_size : Nat
deriving DecidableEq

/--
`BlobStore::safe_subpath`: reject either input containing `/`, `\` or
`..` before touching the filesystem, then join
`base_path/subdir/filename` and run `ensure_within`.
-/
def BlobStore.safe_subpath (store : BlobStore) (canonicalize : FsPath → FsPath)
    (subdir filename : List Char) : Except ServerError FsPath :=
  if subdir.contains '/' || subdir.contains '\\' || hasDotDot subdir
      || filename.contains '/' || filename.contains '\\' || hasDotDot filename then
    .error (.badRequest traversalMsg)
  else
    ensure_within canonicalize store.base_path
      (store.base_path ++ strToComps subdir ++ strToComps filename)

theorem pushNormals_prefix (l : FsPath) :
    ∀ (acc r : FsPath), pushNormals acc l = .ok r → acc <+: r := by
  induction l with
  | nil =>
      intro acc r h
      simp [pushNormals] at h
      exact h ▸ List.prefix_refl acc
  | cons hd tl ih =>
      intro acc r h
      cases hd with
      | normal c =>
          exact (List.prefix_append acc [.normal c]).trans
            (ih (acc ++ [.normal c]) r h)
      | parentDir => simp [pushNormals] at h
      | curDir => exact ih acc r h
      | rootDir => exact ih acc r h

/--
Claim C4: (1) whenever `subdir` or `filename` contains `/`, `\` or `..`,
`safe_subpath` returns the `BadRequest` traversal error — for *every*
canonicalization function, i.e. without consulting the filesystem at all;
(2) every path that `safe_subpath` does return has the canonicalized base
directory as a prefix, i.e. resolves under the blob store's base
directory.
-/
theorem safe_subpath_spec :
    (∀ (store : BlobStore) (canonicalize : FsPath → FsPath)
        (subdir filename : List Char),
      (subdir.contains '/' || subdir.contains '\\' || hasDotDot subdir
        || filename.contains '/' || filename.contains '\\'
        || hasDotDot filename) = true →
      store.safe_subpath canonicalize subdir filename
        = .error (.badRequest traversalMsg))
    ∧ (∀ (store : BlobStore) (canonicalize : FsPath → FsPath)
        (subdir filename : List Char) (p : FsPath),
      store.safe_subpath canonicalize subdir filename = .ok p →
      canonicalize store.base_path <+: p) := by
  constructor
  · intro store canonicalize subdir filename h
    unfold BlobStore.safe_subpath
    rw [h]
    rfl
  · intro store canonicalize subdir filename p h
    unfold BlobStore.safe_subpath at h
    split at h
    · exact absurd h (by simp)
    · unfold ensure_within at h
      split at h
      · exact absurd h (by simp)
      · next resolved heq =>
          split at h
          · cases h
            exact pushNormals_prefix _ _ _ heq
          · exact absurd h (by simp)

/-- Concrete instantiations of both parts of `safe_subpath_spec`: a
traversal-bearing input is rejected independently of the filesystem, and
an accepted input resolves under the base. -/
theorem safe_subpath_spec_witness :
    (BlobStore.safe_subpath ⟨[], 0⟩ id ['a', '/', 'b'] ['c']
        = .error (.badRequest traversalMsg))
    ∧ [PathComp.normal ['d']]
        <+: [PathComp.normal ['d'], .normal ['s'], .normal ['f']] :=
  ⟨safe_subpath_spec.1 ⟨[], 0⟩ id ['a', '/', 'b'] ['c'] (by decide),
   safe_subpath_spec.2 ⟨[.normal ['d']], 0⟩ id ['s'] ['f']
     [PathComp.normal ['d'], .normal ['s'], .normal ['f']] (by rfl)⟩

/--
`BlobStore::delete_blob`: construct the blob's path (`safe_blob_path`
always succeeds on a canonical UUID string, which contains only hex
digits and hyphens), then fail with `BlobNotFound` when the file does not
exist, else remove it.  The filesystem's set of stored blob ids is the
explicit `stored` argument; `fs::remove_file` is modeled as removing the
id (its I/O error path is not relevant to any claim).
-/
def BlobStore.delete_blob (_store : BlobStore) (stored : List Nat) (id : Nat) :
    Except ServerError (List Nat) :=
  if id ∈ stored then .ok (stored.erase id)
  else .error (.blobNotFound id)

/--
Claim C5 as stated is false on the code: deleting a uuid that is not
currently stored does not succeed — `delete_blob` checks
`path.exists()` and fails with `BlobNotFound` (HTTP 404 through
`blob_delete`).  Concretely, deleting from an empty store errors.
-/
theorem blob_delete_absent_counterexample :
    BlobStore.delete_blob ⟨[], 0⟩ [] 0 = .error (.blobNotFound 0) := by rfl

/--
Claim C5, amended: `delete_blob` of an absent uuid fails with
`BlobNotFound` rather than succeeding, so deletion is not idempotent:
after a successful delete of `id`, repeating the delete of `id` also
fails with `BlobNotFound`.
-/
theorem blob_delete_absent_fails (store : BlobStore) (stored : List Nat) (id : Nat) :
    (id ∉ stored →
      store.delete_blob stored id = .error (.blobNotFound id))
    ∧ (∀ s', stored.Nodup → store.delete_blob stored id = .ok s' →
      store.delete_blob s' id = .error (.blobNotFound id)) := by
  constructor
  · intro h
    simp [BlobStore.delete_blob, h]
  · intro s' hnd h
    unfold BlobStore.delete_blob at h
    split at h
    · cases h
      have : id ∉ stored.erase id := by
        intro hmem
        exact ((hnd.mem_erase_iff).1 hmem).1 rfl
      simp [BlobStore.delete_blob, this]
    · exact absurd h (by simp)

/-- Concrete instantiation of `blob_delete_absent_fails`: delete `5` from
the store holding only `5`, then delete it again — the second delete
fails with `BlobNotFound`. -/
theorem blob_delete_absent_fails_witness :
    BlobStore.delete_blob ⟨[], 0⟩ [] 5 = .error (.blobNotFound 5) :=
  (blob_delete_absent_fails ⟨[], 0⟩ [5] 5).2 [] (by decide) rfl

-- ---------------------------------------------------------------------------
-- liberte-server/src/sfu.rs
-- ---------------------------------------------------------------------------

/-- `sfu.rs::EncryptedFrame`: opaque encrypted media frame
(a `PeerId` is embedded as a `Nat`). -/
structure EncryptedFrame where
  sender : Nat
  payload : List Byte
deriving DecidableEq

/-- The bound of the per-participant `mpsc::channel` created in
`SfuRoom::join`. -/
def SFU_CHANNEL_CAPACITY : Nat := 256

/-- `sfu.rs::SfuRoom`: the joined-participant set plus, per participant,
the pending contents of their bounded inbound frame channel (the state
held by the `mpsc` channel whose sender sits in `senders`). -/
structure SfuRoom where
  room_id : Nat
  participants : List Nat
  senders : List (Nat × List EncryptedFrame)
deriving DecidableEq

/-- `SfuRoom::new`: a fresh empty room. -/
def SfuRoom.new (room_id : Nat) : SfuRoom := ⟨room_id, [], []⟩

/-- `mpsc::Sender::try_send` on a bounded channel: enqueue when below
capacity, otherwise drop the frame (the source logs and moves on). -/
def trySend (q : List EncryptedFrame) (f : EncryptedFrame) : List EncryptedFrame :=
  if q.length < SFU_CHANNEL_CAPACITY then q ++ [f] else q

/-- `SfuRoom::join`: insert the peer into the participant set and give it
a fresh (empty) bounded channel. -/
def SfuRoom.join (room : SfuRoom) (peer_id : Nat) : SfuRoom :=
  { room with
      participants :=
        if peer_id ∈ room.participants then room.participants
        else room.participants ++ [peer_id],
      senders := alInsert room.senders peer_id [] }

/-- `SfuRoom::leave`: remove the peer from both maps. -/
def SfuRoom.leave (room : SfuRoom) (peer_id : Nat) : SfuRoom :=
  { room with
      participants := room.participants.filter (fun p => p ≠ peer_id),
      senders := alRemove room.senders peer_id }

/-- `SfuRoom::route_frame`: for every participant other than
`frame.sender`, `try_send` the frame into their channel; the sender's own
channel is skipped.  `try_send` never blocks, so neither does the
router. -/
def SfuRoom.route_frame (room : SfuRoom) (f : EncryptedFrame) : SfuRoom :=
  { room with
      senders := room.senders.map (fun pq =>
        (pq.1, if pq.1 = f.sender then pq.2 else trySend pq.2 f)) }

/-- The pending inbound queue of a participant, when joined. -/
def SfuRoom.queueOf (room : SfuRoom) (peer_id : Nat) :
    Option (List EncryptedFrame) :=
  alGet room.senders peer_id

/-- `sfu.rs::SfuManager::route_frame`: route within the addressed room
when it exists; a missing room only logs a warning. -/
def SfuManager.route_frame (rooms : List (Nat × SfuRoom)) (room_id : Nat)
    (f : EncryptedFrame) : List (Nat × SfuRoom) :=
  match alGet rooms room_id with
  | some room => alInsert rooms room_id (room.route_frame f)
  | none => rooms

/-- The operations a room's state goes through. -/
inductive SfuOp
  | join (peer_id : Nat)
  | leave (peer_id : Nat)
  | route (f : EncryptedFrame)

/-- One step of the room's life cycle. -/
def SfuRoom.applyOp (room : SfuRoom) : SfuOp → SfuRoom
  | .join p => room.join p
  | .leave p => room.leave p
  | .route f => room.route_frame f

/-- The room reached from `SfuRoom::new` by a sequence of operations. -/
def applySfuOps (ops : List SfuOp) : SfuRoom :=
  ops.foldl SfuRoom.applyOp (SfuRoom.new 0)

theorem alGet_map_snd {α β : Type} [DecidableEq α]
    (l : List (α × β)) (g : α → β → β) (k : α) :
    alGet (l.map (fun pq => (pq.1, g pq.1 pq.2))) k = (alGet l k).map (g k) := by
  induction l with
  | nil => rfl
  | cons hd tl ih =>
      obtain ⟨a, b⟩ := hd
      by_cases h : a = k
      · subst h
        simp [alGet]
      · simp [alGet, h, ih]

theorem alGet_alRemove {α β : Type} [DecidableEq α]
    (l : List (α × β)) (k k' : α) :
    alGet (alRemove l k) k' = if k' = k then none else alGet l k' := by
  induction l with
  | nil => simp [alRemove, alGet]
  | cons hd tl ih =>
      obtain ⟨a, b⟩ := hd
      by_cases ha : a = k
      · have hdrop : alRemove ((a, b) :: tl) k = alRemove tl k := by
          simp [alRemove, ha]
        rw [hdrop, ih]
        by_cases hk : k' = k
        · simp [hk]
        · have hak : ¬a = k' := fun hh => hk (hh ▸ ha)
          simp [hk, alGet, hak]
      · have hkeep : alRemove ((a, b) :: tl) k = (a, b) :: alRemove tl k := by
          simp [alRemove, ha]
        rw [hkeep]
        by_cases hk : a = k'
        · subst hk
          simp [alGet, ha]
        · simp [alGet, hk, ih]

theorem sfu_inv_applyOp (room : SfuRoom) (op : SfuOp)
    (h : ∀ p, p ∈ room.participants ↔ (alGet room.senders p).isSome = true) :
    ∀ p, p ∈ (room.applyOp op).participants
      ↔ (alGet (room.applyOp op).senders p).isSome = true := by
  intro p
  cases op with
  | join q =>
      by_cases hpq : p = q
      · subst hpq
        simp only [SfuRoom.applyOp, SfuRoom.join, alGet_alInsert_self]
        constructor
        · intro _
          rfl
        · intro _
          split
          · next hmem => exact hmem
          · exact List.mem_append_right _ (by simp)
      · simp only [SfuRoom.applyOp, SfuRoom.join,
          alGet_alInsert_ne room.senders q p _ hpq]
        rw [← h p]
        split
        · exact Iff.rfl
        · simp [hpq]
  | leave q =>
      simp only [SfuRoom.applyOp, SfuRoom.leave, alGet_alRemove,
        List.mem_filter]
      by_cases hpq : p = q
      · simp [hpq]
      · simp [hpq, h p]
  | route f =>
      simp only [SfuRoom.applyOp, SfuRoom.route_frame,
        alGet_map_snd room.senders
          (fun a q => if a = f.sender then q else trySend q f) p,
        Option.isSome_map']
      exact h p

theorem sfu_inv_foldl (ops : List SfuOp) :
    ∀ (room : SfuRoom),
      (∀ p, p ∈ room.participants ↔ (alGet room.senders p).isSome = true) →
      ∀ p, p ∈ (ops.foldl SfuRoom.applyOp room).participants
        ↔ (alGet (ops.foldl SfuRoom.applyOp room).senders p).isSome = true := by
  induction ops with
  | nil => intro room h; exact h
  | cons hd tl ih =>
      intro room h
      exact ih (room.applyOp hd) (sfu_inv_applyOp room hd h)

/--
Claim C6: (1) `route_frame` enqueues the frame on the inbound queue of
every joined participant other than `frame.sender` when that queue is
below its 256-frame capacity, drops it for a participant whose queue is
full, leaves the sender's own queue untouched, and touches no other
queue (peers without a queue still have none); `route_frame` is a total
function, so the router never blocks.  (2) In every room reachable from
`SfuRoom::new` by join/leave/route operations, the peers holding a queue
are exactly the currently joined participants.
-/
theorem sfu_route_frame_spec :
    (∀ (room : SfuRoom) (f : EncryptedFrame) (p : Nat),
      (room.route_frame f).queueOf p
        = (room.queueOf p).map (fun q =>
            if p = f.sender then q
            else if q.length < SFU_CHANNEL_CAPACITY then q ++ [f] else q))
    ∧ (∀ (ops : List SfuOp) (p : Nat),
      p ∈ (applySfuOps ops).participants
        ↔ ((applySfuOps ops).queueOf p).isSome = true) := by
  constructor
  · intro room f p
    have := alGet_map_snd room.senders
      (fun a q => if a = f.sender then q else trySend q f) p
    simpa [SfuRoom.route_frame, SfuRoom.queueOf, trySend] using this
  · intro ops p
    exact sfu_inv_foldl ops (SfuRoom.new 0) (fun _ => by simp [SfuRoom.new, alGet]) p

-- ---------------------------------------------------------------------------
-- liberte-server/src/rate_limit.rs
-- ---------------------------------------------------------------------------

/-- `rate_limit.rs::TokenBucket`: remaining tokens and last refill time.
`f64` token counts and `Instant`s are embedded as rationals; all
arithmetic the source performs on the values reached in the claims is
exact in `f64`. -/
structure TokenBucket where
  tokens : ℚ
  last_refill : ℚ
deriving DecidableEq

/-- `TokenBucket::new`: a full bucket stamped with the current instant. -/
def TokenBucket.new (capacity : ℚ) (now : ℚ) : TokenBucket := ⟨capacity, now⟩

/-- `TokenBucket::try_consume`: refill `elapsed * rate` tokens capped at
`capacity`, then consume one token when at least one is available. -/
def TokenBucket.try_consume (b : TokenBucket) (now rate capacity : ℚ) :
    Bool × TokenBucket :=
  let elapsed := now - b.last_refill
  let tokens := min (b.tokens + elapsed * rate) capacity
  if 1 ≤ tokens then (true, ⟨tokens - 1, now⟩) else (false, ⟨tokens, now⟩)

/-- `rate_limit.rs::RateLimiter` configuration (the bucket map is passed
explicitly). -/
structure RateLimiter where
  rate : ℚ
  capacity : ℚ
deriving DecidableEq

/-- The per-IP bucket map (`IpAddr` embedded as `Nat`). -/
abbrev Buckets := List (Nat × TokenBucket)

/-- `RateLimiter::check`: `entry(ip).or_insert_with(TokenBucket::new(capacity))`
followed by `try_consume`; returns the verdict and the updated map. -/
def RateLimiter.check (rl : RateLimiter) (buckets : Buckets) (ip : Nat)
    (now : ℚ) : Bool × Buckets :=
  let b := (alGet buckets ip).getD (TokenBucket.new rl.capacity now)
  let r := b.try_consume now rl.rate rl.capacity
  (r.1, alInsert buckets ip r.2)

/-- `impl Default for RateLimiter`: 10 requests/second, burst of 30. -/
def RateLimiter.defaultConfig : RateLimiter := ⟨10, 30⟩

/-- `RateLimiter::purge_stale`: evict buckets idle for at least
`max_idle_secs`. -/
def RateLimiter.purge_stale (buckets : Buckets) (now max_idle_secs : ℚ) :
    Buckets :=
  buckets.filter (fun kv => now - kv.2.last_refill < max_idle_secs)

/-- A sequence of `n` `check` calls for one IP at one instant, collecting
the verdicts. -/
def checkN (rl : RateLimiter) (buckets : Buckets) (ip : Nat) (now : ℚ) :
    Nat → List Bool × Buckets
  | 0 => ([], buckets)
  | n + 1 =>
      let r := rl.check buckets ip now
      let rest := checkN rl r.2 ip now n
      (r.1 :: rest.1, rest.2)

/-- An HTTP request as the middleware sees it: the optional
`ConnectInfo<SocketAddr>` extension (reduced to its IP) and the header
map (header values are valid strings; `to_str` never fails on them). -/
structure HttpRequest where
  connect_info : Option Nat
  headers : List (String × String)

/-- Header name `x-forwarded-for`. -/
def hdrXForwardedFor : String := "x-forwarded-for"

/-- Header name `x-real-ip`. -/
def hdrXRealIp : String := "x-real-ip"

/-- The comma separator of `X-Forwarded-For` lists. -/
def commaStr : String := ","

/-- The fallback for `split(',').next()`, which in fact always yields a
first piece. -/
def emptyStr : String := ""

/-- `rate_limit.rs::extract_client_ip`: `ConnectInfo` first, then the
first comma-separated entry of `X-Forwarded-For` (trimmed), then
`X-Real-IP` (trimmed).  `parseIp` is `str::parse::<IpAddr>` of the
standard library. -/
def extract_client_ip (parseIp : String → Option Nat) (req : HttpRequest) :
    Option Nat :=
  match req.connect_info with
  | some ip => some ip
  | none =>
    match
      (match alGet req.headers hdrXForwardedFor with
       | some value => parseIp ((value.splitOn commaStr).headD emptyStr).trim
       | none => none)
    with
    | some ip => some ip
    | none =>
      match alGet req.headers hdrXRealIp with
      | some value => parseIp value.trim
      | none => none

/-- The middleware's observable outcome: pass the request on, or reply
`429 Too Many Requests`. -/
inductive MiddlewareOutcome
  | forwarded
  | tooManyRequests
deriving DecidableEq

/-- `rate_limit.rs::rate_limit_middleware`: when an IP was extracted and
its bucket check fails, reject with 429; otherwise forward the request
(without touching any bucket when no IP was found). -/
def rate_limit_middleware (parseIp : String → Option Nat) (rl : RateLimiter)
    (buckets : Buckets) (now : ℚ) (req : HttpRequest) :
    MiddlewareOutcome × Buckets :=
  match extract_client_ip parseIp req with
  | some ip =>
      let r := rl.check buckets ip now
      if r.1 then (.forwarded, r.2) else (.tooManyRequests, r.2)
  | none => (.forwarded, buckets)

theorem try_consume_instant (t rate capacity now : ℚ) (h : t ≤ capacity) :
    TokenBucket.try_consume ⟨t, now⟩ now rate capacity
      = if 1 ≤ t then (true, ⟨t - 1, now⟩) else (false, ⟨t, now⟩) := by
  simp [TokenBucket.try_consume, min_eq_left h]

theorem checkN_succ_fst (rl : RateLimiter) (buckets : Buckets) (ip : Nat)
    (now : ℚ) (n : ℕ) :
    (checkN rl buckets ip now (n + 1)).1
      = (rl.check buckets ip now).1
        :: (checkN rl (rl.check buckets ip now).2 ip now n).1 := rfl

theorem check_hit_single (rate capacity t now : ℚ) (ip : Nat) (hcap : t ≤ capacity) :
    RateLimiter.check ⟨rate, capacity⟩ [(ip, ⟨t, now⟩)] ip now
      = if 1 ≤ t then (true, [(ip, ⟨t - 1, now⟩)])
        else (false, [(ip, ⟨t, now⟩)]) := by
  by_cases h1 : 1 ≤ t
  · simp [RateLimiter.check, alGet, alInsert,
      try_consume_instant t rate capacity now hcap, h1]
  · simp [RateLimiter.check, alGet, alInsert,
      try_consume_instant t rate capacity now hcap, h1]

theorem check_miss_empty (rate capacity now : ℚ) (ip : Nat) :
    RateLimiter.check ⟨rate, capacity⟩ [] ip now
      = if 1 ≤ capacity then (true, [(ip, ⟨capacity - 1, now⟩)])
        else (false, [(ip, ⟨capacity, now⟩)]) := by
  by_cases h1 : 1 ≤ capacity
  · simp [RateLimiter.check, alGet, alInsert, TokenBucket.new,
      try_consume_instant capacity rate capacity now (le_refl capacity), h1]
  · simp [RateLimiter.check, alGet, alInsert, TokenBucket.new,
      try_consume_instant capacity rate capacity now (le_refl capacity), h1]

theorem checkN_loop (rate : ℚ) (C : ℕ) (ip : Nat) (now : ℚ) :
    ∀ (n j : ℕ), j ≤ C →
      (checkN ⟨rate, (C : ℚ)⟩ [(ip, ⟨(j : ℚ), now⟩)] ip now n).1
        = if n ≤ j then List.replicate n true
          else List.replicate j true ++ List.replicate (n - j) false := by
  intro n
  induction n with
  | zero =>
      intro j hj
      rw [if_pos (Nat.zero_le j)]
      rfl
  | succ n ih =>
      intro j hj
      have hjC : ((j : ℚ)) ≤ (C : ℚ) := by exact_mod_cast hj
      rcases Nat.eq_zero_or_pos j with hj0 | hjpos
      · subst hj0
        have h0 : ¬ (1 : ℚ) ≤ ((0 : ℕ) : ℚ) := by norm_num
        have hchk := check_hit_single rate (C : ℚ) ((0 : ℕ) : ℚ) now ip hjC
        rw [if_neg h0] at hchk
        rw [checkN_succ_fst, hchk]
        dsimp only
        rw [ih 0 (Nat.zero_le C)]
        have hn1 : ¬ n + 1 ≤ 0 := Nat.not_succ_le_zero n
        rw [if_neg hn1]
        cases n with
        | zero => simp
        | succ k =>
            rw [if_neg (Nat.not_succ_le_zero k)]
            simp [List.replicate_succ]
      · obtain ⟨m, rfl⟩ : ∃ m, j = m + 1 := ⟨j - 1, by omega⟩
        have hone : (1 : ℚ) ≤ ((m + 1 : ℕ) : ℚ) := by
          exact_mod_cast Nat.succ_le_succ (Nat.zero_le m)
        have hsub : ((m + 1 : ℕ) : ℚ) - 1 = ((m : ℕ) : ℚ) := by push_cast; ring
        have hchk := check_hit_single rate (C : ℚ) ((m + 1 : ℕ) : ℚ) now ip hjC
        rw [if_pos hone, hsub] at hchk
        rw [checkN_succ_fst, hchk]
        dsimp only
        have hmC : m ≤ C := le_trans (Nat.le_succ m) hj
        rw [ih m hmC]
        by_cases hnm : n ≤ m
        · rw [if_pos hnm, if_pos (Nat.succ_le_succ hnm), List.replicate_succ]
        · rw [if_neg hnm,
            if_neg (fun hc => hnm (Nat.le_of_succ_le_succ hc)),
            Nat.succ_sub_succ]
          simp [List.replicate_succ]

/--
Claim C7: (1) starting from no recorded bucket for an IP (so the first
`check` creates a full bucket of capacity `C`), `C + 1` consecutive
`check` calls for that IP in the same instant yield `C` admissions
followed by one rejection; (2) the default configuration is 10 tokens
per second with burst capacity 30; (3) at the HTTP edge, an extracted IP
whose bucket check fails makes the middleware answer 429 Too Many
Requests.
-/
theorem token_bucket_burst_spec :
    (∀ (C : ℕ) (rate now : ℚ) (ip : Nat),
      (checkN ⟨rate, (C : ℚ)⟩ [] ip now (C + 1)).1
        = List.replicate C true ++ [false])
    ∧ RateLimiter.defaultConfig = ⟨10, 30⟩
    ∧ (∀ (parseIp : String → Option Nat) (rl : RateLimiter) (buckets : Buckets)
        (now : ℚ) (req : HttpRequest) (ip : Nat),
      extract_client_ip parseIp req = some ip →
      (rl.check buckets ip now).1 = false →
      (rate_limit_middleware parseIp rl buckets now req).1
        = MiddlewareOutcome.tooManyRequests) := by
  refine ⟨?_, rfl, ?_⟩
  · intro C rate now ip
    rcases Nat.eq_zero_or_pos C with hC0 | hCpos
    · subst hC0
      have h0 : ¬ (1 : ℚ) ≤ ((0 : ℕ) : ℚ) := by norm_num
      have hchk := check_miss_empty rate ((0 : ℕ) : ℚ) now ip
      rw [if_neg h0] at hchk
      rw [checkN_succ_fst, hchk]
      rfl
    · obtain ⟨m, rfl⟩ : ∃ m, C = m + 1 := ⟨C - 1, by omega⟩
      have hone : (1 : ℚ) ≤ ((m + 1 : ℕ) : ℚ) := by
        exact_mod_cast Nat.succ_le_succ (Nat.zero_le m)
      have hsub : ((m + 1 : ℕ) : ℚ) - 1 = ((m : ℕ) : ℚ) := by push_cast; ring
      have hchk := check_miss_empty rate ((m + 1 : ℕ) : ℚ) now ip
      rw [if_pos hone, hsub] at hchk
      rw [checkN_succ_fst, hchk]
      dsimp only
      have hloop := checkN_loop rate (m + 1) ip now (m + 1) m (Nat.le_succ m)
      rw [if_neg (Nat.not_succ_le_self m)] at hloop
      have hs1 : m + 1 - m = 1 := by omega
      rw [hs1] at hloop
      rw [hloop]
      simp [List.replicate_succ]
  · intro parseIp rl buckets now req ip hext hchk
    unfold rate_limit_middleware
    rw [hext]
    simp [hchk]

/-- Concrete instantiation of `token_bucket_burst_spec`: with burst
capacity 0 the very first request from IP 7 is answered 429. -/
theorem token_bucket_burst_witness :
    (rate_limit_middleware (fun _ => none) ⟨10, 0⟩ [] 0 ⟨some 7, []⟩).1
      = MiddlewareOutcome.tooManyRequests :=
  token_bucket_burst_spec.2.2 (fun _ => none) ⟨10, 0⟩ [] 0 ⟨some 7, []⟩ 7 rfl
    (by norm_num [RateLimiter.check, TokenBucket.new, TokenBucket.try_consume, alGet])

/--
Claim C10: (1) when no client IP can be extracted from a request (no
`ConnectInfo` and no parseable forwarding header), the middleware
forwards it and leaves every bucket untouched — so such requests are
never rejected no matter how many arrive; (2) the middleware answers
429 Too Many Requests exactly when an IP was extracted and that IP's
bucket held less than one token.
-/
theorem rate_limit_middleware_spec :
    (∀ (parseIp : String → Option Nat) (rl : RateLimiter) (buckets : Buckets)
        (now : ℚ) (req : HttpRequest),
      extract_client_ip parseIp req = none →
      rate_limit_middleware parseIp rl buckets now req
        = (MiddlewareOutcome.forwarded, buckets))
    ∧ (∀ (parseIp : String → Option Nat) (rl : RateLimiter) (buckets : Buckets)
        (now : ℚ) (req : HttpRequest),
      (rate_limit_middleware parseIp rl buckets now req).1
          = MiddlewareOutcome.tooManyRequests
        ↔ ∃ ip, extract_client_ip parseIp req = some ip
            ∧ (rl.check buckets ip now).1 = false) := by
  constructor
  · intro parseIp rl buckets now req h
    unfold rate_limit_middleware
    rw [h]
  · intro parseIp rl buckets now req
    unfold rate_limit_middleware
    cases hext : extract_client_ip parseIp req with
    | none => simp
    | some ip =>
        by_cases hc : (rl.check buckets ip now).1
        · simp [hc]
        · simp only [Bool.not_eq_true] at hc
          simp [hc]

/-- Concrete instantiation of `rate_limit_middleware_spec`: a request
with no socket peer address and an unparseable `X-Forwarded-For` header
passes through with the bucket map unchanged. -/
theorem rate_limit_middleware_witness :
    rate_limit_middleware (fun _ => none) ⟨10, 30⟩ [] 0
        ⟨none, [(hdrXForwardedFor, hdrXForwardedFor)]⟩
      = (MiddlewareOutcome.forwarded, []) :=
  rate_limit_middleware_spec.1 (fun _ => none) ⟨10, 30⟩ [] 0
    ⟨none, [(hdrXForwardedFor, hdrXForwardedFor)]⟩ rfl

-- ---------------------------------------------------------------------------
-- liberte-net/src/peers.rs and the ConnectionEstablished handler of
-- liberte-net/src/swarm.rs
-- ---------------------------------------------------------------------------

/-- A `multiaddr::Protocol` component; only `P2pCircuit` is inspected by
the embedded code, the remaining constructors stand for the other
protocol components a multiaddr can carry. -/
inductive MProtocol
  | ip4 (addr : Nat)
  | ip6 (addr : Nat)
  | udp (port : Nat)
  | quicV1
  | p2p (peer : Nat)
  | p2pCircuit
  | dns (name : Nat)
deriving DecidableEq

/-- A `Multiaddr` as its protocol-component sequence. -/
abbrev Multiaddr := List MProtocol

/-- `types.rs::ConnectionMode`. -/
inductive ConnectionMode
  | direct
  | relayed
  | disconnected
deriving DecidableEq

/-- `peers.rs::ConnectionInfo`. -/
structure ConnectionInfo where
  peer_id : Nat
  address : Multiaddr
  mode : ConnectionMode
  connected_at : Nat
deriving DecidableEq

/-- `peers.rs::PeerTracker`: map of connected peers. -/
structure PeerTracker where
  peers : List (Nat × ConnectionInfo)

/-- `PeerTracker::on_connected`: record the peer with mode `Relayed`
when `is_relayed` and `Direct` otherwise, stamped `now`. -/
def PeerTracker.on_connected (tr : PeerTracker) (peer_id : Nat)
    (address : Multiaddr) (is_relayed : Bool) (now : Nat) : PeerTracker :=
  ⟨alInsert tr.peers peer_id
    ⟨peer_id, address,
      if is_relayed then ConnectionMode.relayed else ConnectionMode.direct,
      now⟩⟩

/-- `PeerTracker::on_disconnected`: drop the peer's entry. -/
def PeerTracker.on_disconnected (tr : PeerTracker) (peer_id : Nat) : PeerTracker :=
  ⟨alRemove tr.peers peer_id⟩

/-- `PeerTracker::upgrade_to_direct`: on DCUtR success, switch an
existing entry to `Direct` with the new address. -/
def PeerTracker.upgrade_to_direct (tr : PeerTracker) (peer_id : Nat)
    (new_address : Multiaddr) : PeerTracker :=
  match alGet tr.peers peer_id with
  | some info =>
      ⟨alInsert tr.peers peer_id
        { info with mode := ConnectionMode.direct, address := new_address }⟩
  | none => tr

/-- The `matches!(p, Protocol::P2pCircuit)` predicate. -/
def isP2pCircuit : MProtocol → Bool
  | .p2pCircuit => true
  | _ => false

/-- The `SwarmEvent::ConnectionEstablished` arm of the event loop in
`swarm.rs::spawn_swarm`: classify the remote address as relayed exactly
when some component is `/p2p-circuit`, and record the connection. -/
def handleConnectionEstablished (tr : PeerTracker) (peer_id : Nat)
    (addr : Multiaddr) (now : Nat) : PeerTracker :=
  tr.on_connected peer_id addr (addr.any isP2pCircuit) now

theorem any_isP2pCircuit_iff (addr : Multiaddr) :
    addr.any isP2pCircuit = true ↔ MProtocol.p2pCircuit ∈ addr := by
  rw [List.any_eq_true]
  constructor
  · rintro ⟨x, hx, hpx⟩
    cases x <;> simp [isP2pCircuit] at hpx
    exact hx
  · intro h
    exact ⟨MProtocol.p2pCircuit, h, rfl⟩

/--
Claim C8: after the overlay event loop records a connection, the tracked
entry for that peer has mode `Relayed` exactly when the observed
multiaddr contains the `/p2p-circuit` component, and mode `Direct`
exactly otherwise.
-/
theorem peer_mode_relayed_iff (tr : PeerTracker) (peer_id : Nat)
    (addr : Multiaddr) (now : Nat) (info : ConnectionInfo)
    (h : alGet (handleConnectionEstablished tr peer_id addr now).peers peer_id
      = some info) :
    (info.mode = ConnectionMode.relayed ↔ MProtocol.p2pCircuit ∈ addr)
    ∧ (info.mode = ConnectionMode.direct ↔ MProtocol.p2pCircuit ∉ addr) := by
  unfold handleConnectionEstablished PeerTracker.on_connected at h
  rw [alGet_alInsert_self] at h
  cases h
  by_cases hmem : MProtocol.p2pCircuit ∈ addr
  · have hany : addr.any isP2pCircuit = true := (any_isP2pCircuit_iff addr).2 hmem
    simp [hany, hmem]
  · have hany : addr.any isP2pCircuit = false := by
      rw [← Bool.not_eq_true]
      exact fun hc => hmem ((any_isP2pCircuit_iff addr).1 hc)
    simp [hany, hmem]

/-- Concrete instantiation of `peer_mode_relayed_iff`: a circuit address
is classified `Relayed`. -/
theorem peer_mode_relayed_iff_witness :
    ((⟨1, [MProtocol.p2pCircuit], ConnectionMode.relayed, 5⟩
        : ConnectionInfo).mode = ConnectionMode.relayed
      ↔ MProtocol.p2pCircuit ∈ [MProtocol.p2pCircuit]) :=
  (peer_mode_relayed_iff ⟨[]⟩ 1 [MProtocol.p2pCircuit] 5
    ⟨1, [MProtocol.p2pCircuit], ConnectionMode.relayed, 5⟩ rfl).1

-- ---------------------------------------------------------------------------
-- liberte-shared/src/protocol.rs
-- ---------------------------------------------------------------------------

/-- The variant tags that `protocol.rs::WireMessage` actually declares —
eight of them, in source order. -/
inductive WireTag
  | chatMessage
  | fileOffer
  | fileAccept
  | fileChunk
  | signal
  | peerStatus
  | channelInvite
  | premiumAuth
deriving DecidableEq

/-- The tag-dispatch step of `WireMessage::from_bytes`: bincode (default
configuration, as used by `bincode::deserialize`) encodes an enum value
as a little-endian `u32` variant index followed by the variant's fields,
and errors out on an index with no matching variant.  `WireMessage`
declares eight variants, so indices `0..=7` dispatch and all others
fail. -/
def wireTagOfIndex : Nat → Option WireTag
  | 0 => some .chatMessage
  | 1 => some .fileOffer
  | 2 => some .fileAccept
  | 3 => some .fileChunk
  | 4 => some .signal
  | 5 => some .peerStatus
  | 6 => some .channelInvite
  | 7 => some .premiumAuth
  | _ => none

/-- `WireMessage::from_bytes` up to its tag dispatch: read the 4-byte
little-endian variant index and resolve it. -/
def decodeWireTag (data : List Byte) : Option WireTag :=
  match data with
  | b0 :: b1 :: b2 :: b3 :: _ =>
      wireTagOfIndex (b0 + 256 * b1 + 65536 * b2 + 16777216 * b3)
  | _ => none

/--
Claim C9 is contradicted by the code: the `WireMessage` enum in
`protocol.rs` declares exactly the eight variants `ChatMessage`,
`FileOffer`, `FileAccept`, `FileChunk`, `Signal`, `PeerStatus`,
`ChannelInvite` and `PremiumAuth` — the variant indices that decode are
exactly `0..=7`, and the encoded input carrying index 8 (the
`TypingIndicator` tag of the thirteen-variant enum that
`liberte-client/src/swarm_bridge.rs` and `commands/media.rs` construct
and match on) is rejected by `from_bytes`, as are indices 9 through 12.
-/
theorem wireMessage_eight_variants :
    ((List.range 13).filter (fun n => (wireTagOfIndex n).isSome))
      = List.range 8
    ∧ decodeWireTag [8, 0, 0, 0] = none
    ∧ decodeWireTag [12, 0, 0, 0] = none
    ∧ decodeWireTag [7, 0, 0, 0] = some WireTag.premiumAuth := by
  refine ⟨by decide, rfl, rfl, rfl⟩

end Liberte
